import Mathlib

/-!
Shallow embedding of `tensorforce/models/distribution_model.py` (class
`DistributionModel`) and proofs about it.

Modelling conventions:
* TensorFlow tensors are modelled semantically as a shape, flat row-major
  rational data, and a flag recording whether the tensor came out of
  `tf.stop_gradient`.
* Python dicts keyed by strings are association lists in insertion order;
  `d[k] = v` overwrites in place when the key exists and appends otherwise.
* The `Network` and `Distribution` classes, and the superclass `MemoryModel`,
  are not part of this file of the repository; their behaviour is abstracted
  as function-valued fields, so every theorem below holds for all behaviours
  of those components.
* Methods that build a TensorFlow graph additionally return the list of
  framework calls they issue (an `Event` trace), which makes claims of the
  form "operation X is invoked with argument Y" stateable.
-/

namespace DistributionModelSpec

/-- Lookup in a Python dict modelled as an association list (first match wins). -/
def dictGet {α : Type} : List (String × α) → String → Option α
  | [], _ => none
  | p :: rest, key => if key = p.1 then some p.2 else dictGet rest key

/-- Python dict assignment `d[k] = v`: overwrite in place when the key exists,
append at the end otherwise. -/
def dictSet {α : Type} (d : List (String × α)) (k : String) (v : α) : List (String × α) :=
  if (dictGet d k).isSome then
    d.map (fun p => if p.1 = k then (k, v) else p)
  else
    d ++ [(k, v)]

/-- The key list of a Python dict, in insertion order. -/
def keys {α : Type} (d : List (String × α)) : List String :=
  d.map Prod.fst

/-- An entry of `actions_spec`: the fields of a tensorforce action dictionary
that `create_distributions` reads.  Keys optional in the Python dict are
`Option`s. -/
structure ActionSpec where
  type : String
  shape : List Nat
  num_actions : Nat
  min_value : Option ℚ
  max_value : Option ℚ
deriving DecidableEq, Repr, Inhabited

/-- The distribution object built for one action by `create_distributions`.
The constructors mirror `Distribution.from_spec`, `Bernoulli`, `Categorical`,
`Beta` and `Gaussian`, each recording the arguments passed at the call site. -/
inductive DistributionObj where
  | fromSpec (spec : String) (action : ActionSpec) (summary_labels : List String)
  | bernoulli (shape : List Nat) (summary_labels : List String)
  | categorical (shape : List Nat) (num_actions : Nat) (summary_labels : List String)
  | beta (shape : List Nat) (min_value max_value : Option ℚ) (summary_labels : List String)
  | gaussian (shape : List Nat) (summary_labels : List String)
deriving DecidableEq, Repr

/-- The `elif` chain of `create_distributions` for an action that has no entry
in `distributions_spec`: Bernoulli for `bool`, Categorical for `int`, Beta for
`float` with a `min_value` key, Gaussian for `float` without one, and no entry
for any other type. -/
def selectDefault (summary_labels : List String) (action : ActionSpec) :
    Option DistributionObj :=
  if action.type = "bool" then
    some (.bernoulli action.shape summary_labels)
  else if action.type = "int" then
    some (.categorical action.shape action.num_actions summary_labels)
  else if action.type = "float" then
    if action.min_value.isSome then
      some (.beta action.shape action.min_value action.max_value summary_labels)
    else
      some (.gaussian action.shape summary_labels)
  else
    none

/-- The body of the `for name, action in self.actions_spec.items()` loop of
`create_distributions`: the distribution object stored for `name`, or `none`
when no branch of the `if`/`elif` chain fires. -/
def selectDistribution (distributions_spec : Option (List (String × String)))
    (summary_labels : List String) (name : String) (action : ActionSpec) :
    Option DistributionObj :=
  match distributions_spec with
  | some dspec =>
    match dictGet dspec name with
    | some spec => some (.fromSpec spec action summary_labels)
    | none => selectDefault summary_labels action
  | none => selectDefault summary_labels action

/-- One iteration of the loop of `create_distributions`: store the selected
distribution (when one is selected) under the action name. -/
def addDistribution (distributions_spec : Option (List (String × String)))
    (summary_labels : List String) (distributions : List (String × DistributionObj))
    (p : String × ActionSpec) : List (String × DistributionObj) :=
  match selectDistribution distributions_spec summary_labels p.1 p.2 with
  | some d => dictSet distributions p.1 d
  | none => distributions

/-- `DistributionModel.create_distributions`: iterate over `actions_spec` and
populate the `distributions` dict. -/
def create_distributions (actions_spec : List (String × ActionSpec))
    (distributions_spec : Option (List (String × String)))
    (summary_labels : List String) : List (String × DistributionObj) :=
  actions_spec.foldl (addDistribution distributions_spec summary_labels) []

/-- The configuration recorded by `DistributionModel.__init__`; effects of the
superclass constructor are outside this file of the repository and not
modelled. -/
structure ConfigState where
  network_spec : String
  distributions_spec : Option (List (String × String))
  entropy_regularization : Option ℚ
  requires_deterministic : Bool
deriving DecidableEq, Repr

/-- The condition of the assertion
`assert entropy_regularization is None or entropy_regularization >= 0.0`. -/
def entropyAssertOK : Option ℚ → Bool
  | none => true
  | some er => decide (0 ≤ er)

/-- `DistributionModel.__init__`: check the entropy-regularization assertion and
record the configuration; `none` models an `AssertionError`. -/
def DistributionModel_init (network : String)
    (distributions : Option (List (String × String)))
    (entropy_regularization : Option ℚ) (requires_deterministic : Bool) :
    Option ConfigState :=
  if entropyAssertOK entropy_regularization then
    some { network_spec := network
           distributions_spec := distributions
           entropy_regularization := entropy_regularization
           requires_deterministic := requires_deterministic }
  else
    none

/-- Semantic value of a TensorFlow tensor: its shape, its entries in row-major
order, and a flag recording whether it is the output of `tf.stop_gradient`. -/
structure Tensor where
  shape : List Nat
  data : List ℚ
  stopped : Bool
deriving DecidableEq, Repr

instance : Inhabited Tensor := ⟨⟨[], [], false⟩⟩

/-- `tf.stop_gradient`: the value is unchanged, gradient flow is cut. -/
def stop_gradient (t : Tensor) : Tensor :=
  { t with stopped := true }

/-- `util.prod` from tensorforce, used for collapsed sizes. -/
def util_prod (xs : List Nat) : Nat :=
  xs.foldl (· * ·) 1

/-- Split a flat list into consecutive rows of length `k` (row-major view of a
rank-2 tensor). -/
def chunk (k : Nat) (xs : List ℚ) : List (List ℚ) :=
  if h : k = 0 ∨ xs = [] then []
  else (xs.take k) :: chunk k (xs.drop k)
termination_by xs.length
decreasing_by
  push_neg at h
  simp only [List.length_drop]
  have hk : 0 < k := Nat.pos_of_ne_zero h.1
  have hx : 0 < xs.length := List.length_pos.mpr h.2
  omega

/-- `tf.reshape(tensor, shape=(-1, collapsed_size))` viewed as a list of rows. -/
def reshapeRows (t : Tensor) (collapsed_size : Nat) : List (List ℚ) :=
  chunk collapsed_size t.data

/-- `tf.concat(values, axis=1)` on matrices given as row lists. -/
def concatAxis1 : List (List (List ℚ)) → List (List ℚ)
  | [] => []
  | m :: ms => ms.foldl (fun acc mm => List.zipWith (· ++ ·) acc mm) m

/-- Mean of a list of rationals (`tf.reduce_mean` along one axis). -/
def listMean (xs : List ℚ) : ℚ :=
  xs.sum / xs.length

/-- `tf.reduce_mean(·, axis=1)`: the per-row (per-instance) mean. -/
def rowMeans (m : List (List ℚ)) : List ℚ :=
  m.map listMean

/-- Behavioural interface of a tensorforce `Network` object.  The class itself
is outside this file of the repository, so its behaviour is abstract: `apply`
takes the input, the internal states and the `update` flag and returns the
embedding together with the posterior internal states (the call without
`return_internals` is the first component). -/
structure Network where
  apply : Tensor → List Tensor → Bool → Tensor × List Tensor
  internals_spec : List String
  regularization_loss : Option ℚ
  get_variables : Bool → List String
  get_summaries : List String

/-- Behavioural interface of a tensorforce `Distribution` object (the class is
outside this file of the repository).  `parameterize` returns the list of
distribution parameters, indexed `[logits, probabilities, state_value]` at the
call sites below. -/
structure Distribution where
  parameterize : Tensor → List Tensor
  sample : List Tensor → Bool → Tensor
  entropy : List Tensor → Tensor
  kl_divergence : List Tensor → List Tensor → Tensor
  regularization_loss : Option ℚ
  get_variables : Bool → List String
  get_summaries : List String

instance : Inhabited Distribution :=
  ⟨{ parameterize := fun _ => []
     sample := fun _ _ => default
     entropy := fun _ => default
     kl_divergence := fun _ _ => default
     regularization_loss := none
     get_variables := fun _ => []
     get_summaries := [] }⟩

/-- The state of an initialized `DistributionModel` that the graph-building
methods read.  The `super…` fields abstract the `MemoryModel` superclass, whose
code is outside this file of the repository. -/
structure Model where
  requires_deterministic : Bool
  entropy_regularization : Option ℚ
  network : Network
  distributions : List (String × Distribution)
  summary_labels : List String
  superRegularizationLosses : Tensor → List Tensor → Bool → List (String × ℚ)
  superGetVariables : Bool → Bool → List String
  superGetSummaries : List String

/-- A framework call issued while building the graph. -/
inductive Event where
  | networkApply (x : Tensor) (internals : List Tensor) (update : Bool)
  | parameterize (name : String) (x : Tensor)
  | sample (name : String) (deterministic : Bool)
  | setNamedTensor (key : String) (value : Tensor)
  | klDivergence (name : String) (distr_params1 distr_params2 : List Tensor)
deriving DecidableEq, Repr

/-- The per-distribution body of the loop in `tf_actions_and_internals`: the
sampled action for one entry of `self.distributions`, together with the
framework calls it issues (`parameterize`, `sample`, and the three
`set_named_tensor` registrations). -/
def actionStep (m : Model) (embedding : Tensor) (deterministic : Bool)
    (p : String × Distribution) : (String × Tensor) × List Event :=
  let distr_params := p.2.parameterize embedding
  let action := p.2.sample distr_params (deterministic || m.requires_deterministic)
  let pfx := if m.distributions.length > 1 then p.1 ++ "_" else ""
  ((p.1, action),
   [Event.parameterize p.1 embedding,
    Event.sample p.1 (deterministic || m.requires_deterministic),
    Event.setNamedTensor (pfx ++ "logits") (distr_params.getD 0 default),
    Event.setNamedTensor (pfx ++ "probabilities") (distr_params.getD 1 default),
    Event.setNamedTensor (pfx ++ "state_value") (distr_params.getD 2 default)])

/-- `DistributionModel.tf_actions_and_internals`: apply the network once with
`update=False` and `return_internals=True`, sample every distribution from the
shared embedding, register the named tensors, and return the actions with the
posterior internals.  The second component is the trace of framework calls. -/
def tf_actions_and_internals (m : Model) (states : Tensor) (internals : List Tensor)
    (deterministic : Bool) :
    (List (String × Tensor) × List Tensor) × List Event :=
  let applied := m.network.apply states internals false
  let embedding := applied.1
  ((m.distributions.map (fun p => (actionStep m embedding deterministic p).1), applied.2),
   Event.networkApply states internals false ::
     m.distributions.flatMap (fun p => (actionStep m embedding deterministic p).2))

/-- The body of the distribution loop of `tf_regularization_losses`: add the
distribution's regularization loss to the `'distributions'` entry, creating it
on first use. -/
def accumulateDistributionLoss (losses : List (String × ℚ)) (p : String × Distribution) :
    List (String × ℚ) :=
  match p.2.regularization_loss with
  | some regularization_loss =>
    match dictGet losses "distributions" with
    | some cur => dictSet losses "distributions" (cur + regularization_loss)
    | none => dictSet losses "distributions" regularization_loss
  | none => losses

/-- `DistributionModel.tf_regularization_losses`: superclass losses, then the
network loss under `'network'`, the accumulated distribution losses under
`'distributions'`, and the entropy penalty under `'entropy'` when entropy
regularization is enabled. -/
def tf_regularization_losses (m : Model) (states : Tensor) (internals : List Tensor)
    (update : Bool) : List (String × ℚ) :=
  let losses := m.superRegularizationLosses states internals update
  let losses :=
    match m.network.regularization_loss with
    | some network_loss => dictSet losses "network" network_loss
    | none => losses
  let losses := m.distributions.foldl accumulateDistributionLoss losses
  match m.entropy_regularization with
  | some er =>
    if 0 < er then
      let embedding := (m.network.apply states internals update).1
      let entropies := m.distributions.map (fun p =>
        let entropy := p.2.entropy (p.2.parameterize embedding)
        reshapeRows entropy (util_prod (entropy.shape.drop 1)))
      let entropy_per_instance := rowMeans (concatAxis1 entropies)
      dictSet losses "entropy" (-er * listMean entropy_per_instance)
    else losses
  | none => losses

/-- The per-distribution body of the loop in `tf_kl_divergence`: the reshaped
KL-divergence matrix of one entry of `self.distributions`, together with the
`kl_divergence` framework call it issues. -/
def klStep (embedding : Tensor) (p : String × Distribution) :
    List (List ℚ) × Event :=
  let distr_params := p.2.parameterize embedding
  let fixed_distr_params := distr_params.map stop_gradient
  let kl_divergence := p.2.kl_divergence fixed_distr_params distr_params
  (reshapeRows kl_divergence (util_prod (kl_divergence.shape.drop 1)),
   Event.klDivergence p.1 fixed_distr_params distr_params)

/-- `DistributionModel.tf_kl_divergence`: apply the network once, compare each
distribution's gradient-stopped parameters against its live parameters, reshape
and concatenate the per-distribution results, and average per instance and then
over the batch.  The second component is the trace of framework calls. -/
def tf_kl_divergence (m : Model) (states : Tensor) (internals : List Tensor)
    (actions : List (String × Tensor)) (terminal : List Bool) (reward : List ℚ)
    (next_states : Tensor) (next_internals : List Tensor) (update : Bool)
    (reference : Option Tensor) : ℚ × List Event :=
  let embedding := (m.network.apply states internals update).1
  let kl_divergences := m.distributions.map (fun p => (klStep embedding p).1)
  let kl_divergence_per_instance := rowMeans (concatAxis1 kl_divergences)
  (listMean kl_divergence_per_instance,
   Event.networkApply states internals update ::
     m.distributions.map (fun p => (klStep embedding p).2))

/-- `DistributionModel.optimizer_arguments`: take the superclass arguments dict
(the superclass is outside this file of the repository, so its result is a
parameter) and bind `'fn_kl_divergence'` to the model's KL-divergence
template. -/
def optimizer_arguments {α : Type} (superArguments : List (String × α))
    (fn_kl_divergence : α) : List (String × α) :=
  dictSet superArguments "fn_kl_divergence" fn_kl_divergence

/-- The `sorted(self.distributions)` expression: the dict keys in ascending
lexicographic order. -/
def sortedNames (distributions : List (String × Distribution)) : List String :=
  List.insertionSort (· ≤ ·) (keys distributions)

/-- `DistributionModel.get_variables`: superclass variables, then network
variables, then the variables of each distribution taken in sorted order of the
action names. -/
def get_variables (m : Model) (include_submodules include_nontrainable : Bool) :
    List String :=
  let model_variables := m.superGetVariables include_submodules include_nontrainable
  let network_variables := m.network.get_variables include_nontrainable
  let distribution_variables := (sortedNames m.distributions).flatMap (fun name =>
    ((dictGet m.distributions name).getD default).get_variables include_nontrainable)
  model_variables ++ network_variables ++ distribution_variables

/-- `DistributionModel.get_summaries`: superclass summaries, then network
summaries, then the summaries of each distribution taken in sorted order of the
action names. -/
def get_summaries (m : Model) : List String :=
  let model_summaries := m.superGetSummaries
  let network_summaries := m.network.get_summaries
  let distribution_summaries := (sortedNames m.distributions).flatMap (fun name =>
    ((dictGet m.distributions name).getD default).get_summaries)
  model_summaries ++ network_summaries ++ distribution_summaries

/-- The fields of the model that `DistributionModel.initialize` manipulates
around its assertion: the `internals_spec` attribute and the network slot. -/
structure InitState where
  internals_spec : List String
  network : Option Network

/-- `DistributionModel.initialize`: build the network from its spec (the
constructed network is a parameter since `Network.from_spec` is outside this
file of the repository), assert that `internals_spec` is still empty, replace
it by the network's `internals_spec()`, and run the superclass initialization
(abstracted as `superInit`).  `none` models an `AssertionError`. -/
def initModel (m : InitState) (networkFromSpec : Network)
    (superInit : InitState → InitState) : Option InitState :=
  let m1 : InitState := { m with network := some networkFromSpec }
  if m1.internals_spec.length = 0 then
    let m2 : InitState := { m1 with internals_spec := networkFromSpec.internals_spec }
    some (superInit m2)
  else
    none

/-- A concrete network instantiating the abstract `Network` interface. -/
def demoNetwork : Network :=
  { apply := fun x internals _ => (x, internals)
    internals_spec := ["internal0"]
    regularization_loss := none
    get_variables := fun _ => ["net_var"]
    get_summaries := ["net_sum"] }

/-- A concrete distribution instantiating the abstract `Distribution`
interface. -/
def demoDistribution (tag : String) : Distribution :=
  { parameterize := fun x => [x, x, x]
    sample := fun distr_params _ => distr_params.getD 0 default
    entropy := fun _ => { shape := [2, 1], data := [1, 3], stopped := false }
    kl_divergence := fun _ _ => { shape := [2, 1], data := [0, 2], stopped := false }
    regularization_loss := some 1
    get_variables := fun _ => [tag ++ "_var"]
    get_summaries := [tag ++ "_sum"] }

/-- A concrete model with two distributions, used to instantiate theorems. -/
def demoModel : Model :=
  { requires_deterministic := true
    entropy_regularization := some 1
    network := demoNetwork
    distributions := [("alpha", demoDistribution "alpha"),
                      ("beta", demoDistribution "beta")]
    summary_labels := []
    superRegularizationLosses := fun _ _ _ => [("base", 2)]
    superGetVariables := fun _ _ => ["model_var"]
    superGetSummaries := ["model_sum"] }

/-- A concrete batch of states. -/
def demoStates : Tensor :=
  { shape := [2, 1], data := [5, 7], stopped := false }

/-- Splitting a lookup over an append. -/
theorem dictGet_append {α : Type} (d l : List (String × α)) (k : String) :
    dictGet (d ++ l) k
      = match dictGet d k with
        | some v => some v
        | none => dictGet l k := by
  induction d with
  | nil => rfl
  | cons p rest ih =>
    by_cases h : k = p.1 <;> simp [dictGet, h, ih]

/-- Assigning a fresh key appends it at the end of the dict. -/
theorem dictSet_of_fresh {α : Type} (d : List (String × α)) (k : String) (v : α)
    (h : dictGet d k = none) : dictSet d k v = d ++ [(k, v)] := by
  simp [dictSet, h]

/-- Overwriting the binding of `k` in place does not change other keys. -/
theorem dictGet_overwrite_ne {α : Type} (d : List (String × α)) (k k' : String) (v : α)
    (h : k' ≠ k) :
    dictGet (d.map (fun p => if p.1 = k then (k, v) else p)) k' = dictGet d k' := by
  induction d with
  | nil => rfl
  | cons p rest ih =>
    by_cases hp : p.1 = k
    · simp [dictGet, hp, h, ih]
    · by_cases hk : k' = p.1 <;> simp [dictGet, hp, hk, ih]

/-- Overwriting the binding of a present key makes its lookup the new value. -/
theorem dictGet_overwrite_self {α : Type} (d : List (String × α)) (k : String) (v : α)
    (h : (dictGet d k).isSome) :
    dictGet (d.map (fun p => if p.1 = k then (k, v) else p)) k = some v := by
  induction d with
  | nil => simp [dictGet] at h
  | cons p rest ih =>
    by_cases hp : p.1 = k
    · simp [dictGet, hp]
    · have h2 : (dictGet rest k).isSome := by
        simpa [dictGet, Ne.symm hp] using h
      simp [dictGet, hp, Ne.symm hp, ih h2]

/-- Overwriting a binding in place preserves the key list. -/
theorem keys_overwrite {α : Type} (d : List (String × α)) (k : String) (v : α) :
    keys (d.map (fun p => if p.1 = k then (k, v) else p)) = keys d := by
  induction d with
  | nil => rfl
  | cons p rest ih =>
    by_cases hp : p.1 = k <;> simp [keys, hp] at ih ⊢ <;> exact ih

/-- Assigning one key does not change the binding of any other key. -/
theorem dictGet_dictSet_ne {α : Type} (d : List (String × α)) (k k' : String) (v : α)
    (h : k' ≠ k) : dictGet (dictSet d k v) k' = dictGet d k' := by
  unfold dictSet
  split
  · exact dictGet_overwrite_ne d k k' v h
  · rw [dictGet_append]
    cases hd : dictGet d k' with
    | some v => rfl
    | none => simp [dictGet, h]

/-- Assigning a key makes the lookup of that key return the assigned value. -/
theorem dictGet_dictSet_self {α : Type} (d : List (String × α)) (k : String) (v : α) :
    dictGet (dictSet d k v) k = some v := by
  unfold dictSet
  split
  case isTrue hsome => exact dictGet_overwrite_self d k v hsome
  case isFalse hnone =>
    rw [dictGet_append]
    cases hd : dictGet d k with
    | some w => simp [hd] at hnone
    | none => simp [dictGet]

/-- Key list of a dict after assigning a fresh key. -/
theorem keys_dictSet_fresh {α : Type} (d : List (String × α)) (k : String) (v : α)
    (h : dictGet d k = none) : keys (dictSet d k v) = keys d ++ [k] := by
  rw [dictSet_of_fresh d k v h]
  simp [keys]

/-- Assigning an existing key leaves the key list unchanged. -/
theorem keys_dictSet_existing {α : Type} (d : List (String × α)) (k : String) (v : α)
    (h : (dictGet d k).isSome) : keys (dictSet d k v) = keys d := by
  unfold dictSet
  rw [if_pos h]
  exact keys_overwrite d k v

/-- Claim C5: `DistributionModel.__init__` raises exactly when
`entropy_regularization` is a negative number (never on `None` or a value
that is at least `0.0`), and every accepted value is stored unchanged. -/
theorem init_entropy_assert (network : String)
    (distributions : Option (List (String × String)))
    (entropy_regularization : Option ℚ) (requires_deterministic : Bool) :
    (DistributionModel_init network distributions entropy_regularization
        requires_deterministic = none ↔
      ∃ er, entropy_regularization = some er ∧ er < 0) ∧
    ∀ cfg, DistributionModel_init network distributions entropy_regularization
        requires_deterministic = some cfg →
      cfg.entropy_regularization = entropy_regularization := by
  constructor
  · cases entropy_regularization with
    | none => simp [DistributionModel_init, entropyAssertOK]
    | some er =>
      by_cases h : 0 ≤ er
      · simp [DistributionModel_init, entropyAssertOK, h, not_lt.mpr h]
      · simp [DistributionModel_init, entropyAssertOK, h, not_le.mp h]
  · intro cfg h
    unfold DistributionModel_init at h
    split at h
    · cases h; rfl
    · exact Option.noConfusion h

/-- Witness for `init_entropy_assert`: a negative regularization weight is
rejected. -/
theorem init_entropy_assert_witness :
    DistributionModel_init "net" none (some (-1)) true = none :=
  (init_entropy_assert "net" none (some (-1)) true).1.mpr ⟨-1, rfl, by norm_num⟩

/-- Claim C10: `DistributionModel.initialize` fails exactly when
`internals_spec` is non-empty on entry; starting from an empty
`internals_spec` the assertion cannot fire and afterwards `internals_spec`
is the network's `internals_spec()` (for any superclass initialization that
leaves the attribute alone). -/
theorem initModel_internals_spec (m : InitState) (networkFromSpec : Network)
    (superInit : InitState → InitState)
    (hsuper : ∀ s, (superInit s).internals_spec = s.internals_spec) :
    (initModel m networkFromSpec superInit = none ↔ m.internals_spec ≠ []) ∧
    (m.internals_spec = [] →
      ∃ m2, initModel m networkFromSpec superInit = some m2 ∧
        m2.internals_spec = networkFromSpec.internals_spec) := by
  constructor
  · by_cases h : m.internals_spec = [] <;>
      simp [initModel, h, List.length_eq_zero]
  · intro h
    refine ⟨superInit { m with network := some networkFromSpec,
                               internals_spec := networkFromSpec.internals_spec }, ?_, ?_⟩
    · simp [initModel, h]
    · rw [hsuper]

/-- Witness for `initModel_internals_spec`: initializing with an empty
`internals_spec` succeeds and copies the network's spec. -/
theorem initModel_internals_spec_witness :
    ∃ m2, initModel ⟨[], none⟩ demoNetwork id = some m2 ∧
      m2.internals_spec = demoNetwork.internals_spec :=
  (initModel_internals_spec ⟨[], none⟩ demoNetwork id (fun _ => rfl)).2 rfl

/-- Claim C7: `optimizer_arguments` binds `'fn_kl_divergence'` to the model's
KL-divergence template, leaves every superclass entry unchanged, and adds no
other key. -/
theorem optimizer_arguments_extends {α : Type} (superArguments : List (String × α))
    (fn_kl_divergence : α)
    (hfresh : dictGet superArguments "fn_kl_divergence" = none) :
    dictGet (optimizer_arguments superArguments fn_kl_divergence) "fn_kl_divergence"
        = some fn_kl_divergence ∧
    (∀ k, k ≠ "fn_kl_divergence" →
      dictGet (optimizer_arguments superArguments fn_kl_divergence) k
        = dictGet superArguments k) ∧
    keys (optimizer_arguments superArguments fn_kl_divergence)
      = keys superArguments ++ ["fn_kl_divergence"] := by
  refine ⟨dictGet_dictSet_self _ _ _, ?_, ?_⟩
  · intro k hk
    exact dictGet_dictSet_ne _ _ _ _ hk
  · exact keys_dictSet_fresh _ _ _ hfresh

/-- Witness for `optimizer_arguments_extends` on a one-entry superclass
dict. -/
theorem optimizer_arguments_extends_witness :
    dictGet [("fn_loss", (1 : Nat))] "fn_kl_divergence" = none ∧
    dictGet (optimizer_arguments [("fn_loss", (1 : Nat))] 2) "fn_kl_divergence"
      = some 2 :=
  ⟨by decide, (optimizer_arguments_extends [("fn_loss", 1)] 2 (by decide)).1⟩

/-- Whether an event is a call to `network.apply`. -/
def isNetworkApply : Event → Bool
  | .networkApply _ _ _ => true
  | _ => false

/-- The keys passed to `set_named_tensor`, in call order. -/
def namedTensorKeys (trace : List Event) : List String :=
  trace.filterMap (fun e => match e with
    | .setNamedTensor key _ => some key
    | _ => none)

/-- Counting over a flat map whose blocks contain no matching element. -/
theorem countP_flatMap_zero {α β : Type} (l : List α) (f : α → List β) (q : β → Bool)
    (h : ∀ a ∈ l, (f a).countP q = 0) : (l.flatMap f).countP q = 0 := by
  induction l with
  | nil => rfl
  | cons a t ih =>
    simp only [List.flatMap_cons, List.countP_append]
    rw [h a (by simp), ih (fun b hb => h b (by simp [hb]))]

/-- `namedTensorKeys` distributes over a flat map of event blocks. -/
theorem namedTensorKeys_flatMap {α : Type} (l : List α) (f : α → List Event) :
    namedTensorKeys (l.flatMap f) = l.flatMap (fun a => namedTensorKeys (f a)) := by
  induction l with
  | nil => rfl
  | cons a t ih =>
    simp only [List.flatMap_cons, namedTensorKeys, List.filterMap_append] at ih ⊢
    rw [ih]

/-- Claim C1: every `sample` call issued by `tf_actions_and_internals` receives
the logical OR of the caller's `deterministic` argument and the model's
`requires_deterministic` flag; in particular when `requires_deterministic`
holds the flag is `true` for every value of the `deterministic` argument. -/
theorem sample_deterministic_flag (m : Model) (states : Tensor)
    (internals : List Tensor) (deterministic : Bool) :
    (∀ name flag,
      Event.sample name flag ∈
          (tf_actions_and_internals m states internals deterministic).2 →
        flag = (deterministic || m.requires_deterministic)) ∧
    (m.requires_deterministic = true →
      ∀ name flag,
        Event.sample name flag ∈
            (tf_actions_and_internals m states internals deterministic).2 →
          flag = true) := by
  have hflag : ∀ name flag,
      Event.sample name flag ∈
          (tf_actions_and_internals m states internals deterministic).2 →
        flag = (deterministic || m.requires_deterministic) := by
    intro name flag hmem
    simp only [tf_actions_and_internals, actionStep, List.mem_cons,
      List.mem_flatMap] at hmem
    rcases hmem with h | ⟨p, _, h⟩
    · cases h
    · simp only [List.mem_cons, List.not_mem_nil, or_false] at h
      rcases h with h | h | h | h | h <;> cases h
      rfl
  refine ⟨hflag, ?_⟩
  intro h name flag hmem
  have := hflag name flag hmem
  rw [h, Bool.or_true] at this
  exact this

/-- Witness for `sample_deterministic_flag` on the concrete model (whose
`requires_deterministic` is `true`): the recorded flag of a `sample` call with
`deterministic=False` is `true`. -/
theorem sample_deterministic_flag_witness :
    demoModel.requires_deterministic = true ∧ (true : Bool) = true :=
  ⟨rfl, (sample_deterministic_flag demoModel demoStates [] false).2 rfl "alpha" true
    (by decide)⟩

/-- Claim C6: `tf_actions_and_internals` calls `network.apply` exactly once,
parameterizes every distribution from that single embedding, and returns the
internals produced by that one application. -/
theorem single_network_application (m : Model) (states : Tensor)
    (internals : List Tensor) (deterministic : Bool) :
    ((tf_actions_and_internals m states internals deterministic).2.countP
        (fun e => isNetworkApply e) = 1) ∧
    (∀ name x,
      Event.parameterize name x ∈
          (tf_actions_and_internals m states internals deterministic).2 →
        x = (m.network.apply states internals false).1) ∧
    (tf_actions_and_internals m states internals deterministic).1.2
      = (m.network.apply states internals false).2 := by
  refine ⟨?_, ?_, rfl⟩
  · simp only [tf_actions_and_internals, List.countP_cons, isNetworkApply]
    rw [countP_flatMap_zero]
    · simp [isNetworkApply]
    · intro p _
      simp [actionStep, List.countP_cons, isNetworkApply]
  · intro name x hmem
    simp only [tf_actions_and_internals, actionStep, List.mem_cons,
      List.mem_flatMap] at hmem
    rcases hmem with h | ⟨p, _, h⟩
    · cases h
    · simp only [List.mem_cons, List.not_mem_nil, or_false] at h
      rcases h with h | h | h | h | h <;> cases h
      rfl

/-- Witness for `single_network_application`: on the concrete model the shared
embedding is the state tensor itself. -/
theorem single_network_application_witness :
    demoStates = (demoModel.network.apply demoStates [] false).1 :=
  (single_network_application demoModel demoStates [] false).2.1 "alpha" demoStates
    (by decide)

/-- Claim C8: `tf_actions_and_internals` registers the three tensors of each
distribution's `parameterize` result under keys prefixed with the action name
and an underscore exactly when the model holds more than one distribution, and
under the bare keys `logits`, `probabilities`, `state_value` when it holds
exactly one. -/
theorem named_tensor_key_prefix (m : Model) (states : Tensor)
    (internals : List Tensor) (deterministic : Bool) :
    namedTensorKeys (tf_actions_and_internals m states internals deterministic).2
      = m.distributions.flatMap (fun p =>
          if m.distributions.length > 1 then
            [p.1 ++ "_" ++ "logits", p.1 ++ "_" ++ "probabilities",
             p.1 ++ "_" ++ "state_value"]
          else
            ["logits", "probabilities", "state_value"]) := by
  have hstep : ∀ embedding p,
      namedTensorKeys (actionStep m embedding deterministic p).2
        = if m.distributions.length > 1 then
            [p.1 ++ "_" ++ "logits", p.1 ++ "_" ++ "probabilities",
             p.1 ++ "_" ++ "state_value"]
          else
            ["logits", "probabilities", "state_value"] := by
    intro embedding p
    by_cases h : m.distributions.length > 1 <;>
      simp [actionStep, namedTensorKeys, h, String.append_assoc]
  have hcons : ∀ l, namedTensorKeys (Event.networkApply states internals false :: l)
      = namedTensorKeys l := by
    intro l
    simp [namedTensorKeys]
  simp only [tf_actions_and_internals]
  rw [hcons, namedTensorKeys_flatMap]
  simp only [hstep]

/-- Claim C4: `tf_kl_divergence` applies the network once; every
`kl_divergence` call compares the gradient-stopped copy of the parameters (as
first argument) against the live parameters (as second argument); the
per-distribution results are reshaped, concatenated along axis 1, and averaged
per instance and then over the batch; and the `reference` argument has no
effect. -/
theorem kl_stop_gradient_pipeline (m : Model) (states : Tensor) (internals : List Tensor)
    (actions : List (String × Tensor)) (terminal : List Bool) (reward : List ℚ)
    (next_states : Tensor) (next_internals : List Tensor) (update : Bool)
    (reference : Option Tensor) :
    ((tf_kl_divergence m states internals actions terminal reward next_states
        next_internals update reference).2.countP (fun e => isNetworkApply e) = 1) ∧
    (∀ name distr_params1 distr_params2,
      Event.klDivergence name distr_params1 distr_params2 ∈
          (tf_kl_divergence m states internals actions terminal reward next_states
            next_internals update reference).2 →
        distr_params1 = distr_params2.map stop_gradient ∧
        ∃ d, (name, d) ∈ m.distributions ∧
          distr_params2 = d.parameterize ((m.network.apply states internals update).1)) ∧
    ((tf_kl_divergence m states internals actions terminal reward next_states
        next_internals update reference).1
      = listMean (rowMeans (concatAxis1 (m.distributions.map (fun p =>
          reshapeRows
            (p.2.kl_divergence
              ((p.2.parameterize ((m.network.apply states internals update).1)).map
                stop_gradient)
              (p.2.parameterize ((m.network.apply states internals update).1)))
            (util_prod
              ((p.2.kl_divergence
                ((p.2.parameterize ((m.network.apply states internals update).1)).map
                  stop_gradient)
                (p.2.parameterize
                  ((m.network.apply states internals update).1))).shape.drop 1))))))) ∧
    (∀ reference2,
      tf_kl_divergence m states internals actions terminal reward next_states
          next_internals update reference
        = tf_kl_divergence m states internals actions terminal reward next_states
            next_internals update reference2) := by
  refine ⟨?_, ?_, rfl, fun _ => rfl⟩
  · simp only [tf_kl_divergence, List.countP_cons, isNetworkApply]
    rw [List.countP_eq_zero.mpr]
    · simp [isNetworkApply]
    · intro e he
      rcases List.mem_map.mp he with ⟨p, _, hp⟩
      subst hp
      simp [klStep, isNetworkApply]
  · intro name distr_params1 distr_params2 hmem
    simp only [tf_kl_divergence, List.mem_cons, List.mem_map] at hmem
    rcases hmem with h | ⟨p, hp, h⟩
    · cases h
    · rw [klStep] at h
      cases h
      exact ⟨rfl, p.2, by simpa using hp, rfl⟩

/-- Witness for `kl_stop_gradient_pipeline` on the concrete model: the
parameters compared are the stopped and live copies of the demo embedding. -/
theorem kl_stop_gradient_pipeline_witness :
    [stop_gradient demoStates, stop_gradient demoStates, stop_gradient demoStates]
        = [demoStates, demoStates, demoStates].map stop_gradient ∧
    ∃ d, ("alpha", d) ∈ demoModel.distributions ∧
      [demoStates, demoStates, demoStates]
        = d.parameterize ((demoModel.network.apply demoStates [] false).1) :=
  (kl_stop_gradient_pipeline demoModel demoStates [] [] [] [] demoStates [] false
      none).2.1 "alpha" _ _ (by decide)

/-- Folding distribution regularization losses only touches `'distributions'`,
so any other key keeps its binding. -/
theorem dictGet_foldl_accumulate (l : List (String × Distribution))
    (d : List (String × ℚ)) (k : String) (hk : k ≠ "distributions") :
    dictGet (l.foldl accumulateDistributionLoss d) k = dictGet d k := by
  induction l generalizing d with
  | nil => rfl
  | cons p t ih =>
    rw [List.foldl_cons, ih]
    unfold accumulateDistributionLoss
    cases p.2.regularization_loss with
    | none => rfl
    | some r =>
      cases dictGet d "distributions" with
      | some cur => exact dictGet_dictSet_ne _ _ _ _ hk
      | none => exact dictGet_dictSet_ne _ _ _ _ hk

/-- Claim C3: the losses dict of `tf_regularization_losses` carries an
`'entropy'` entry exactly when `entropy_regularization` is a strictly positive
number, and that entry is minus `entropy_regularization` times the batch mean
of the per-instance mean of the concatenated per-action entropies. -/
theorem entropy_loss_key (m : Model) (states : Tensor) (internals : List Tensor)
    (update : Bool)
    (hsuper : dictGet (m.superRegularizationLosses states internals update) "entropy"
      = none) :
    ((dictGet (tf_regularization_losses m states internals update) "entropy").isSome ↔
      ∃ er, m.entropy_regularization = some er ∧ 0 < er) ∧
    (∀ er, m.entropy_regularization = some er → 0 < er →
      dictGet (tf_regularization_losses m states internals update) "entropy"
        = some (-er * listMean (rowMeans (concatAxis1 (m.distributions.map (fun p =>
            reshapeRows
              (p.2.entropy (p.2.parameterize ((m.network.apply states internals update).1)))
              (util_prod
                ((p.2.entropy
                  (p.2.parameterize
                    ((m.network.apply states internals update).1))).shape.drop 1)))))))) := by
  have hnet : dictGet
      (match m.network.regularization_loss with
        | some network_loss =>
          dictSet (m.superRegularizationLosses states internals update) "network"
            network_loss
        | none => m.superRegularizationLosses states internals update) "entropy"
      = none := by
    cases m.network.regularization_loss with
    | none => exact hsuper
    | some network_loss =>
      rw [dictGet_dictSet_ne _ _ _ _ (by decide)]
      exact hsuper
  have hacc : dictGet (m.distributions.foldl accumulateDistributionLoss
      (match m.network.regularization_loss with
        | some network_loss =>
          dictSet (m.superRegularizationLosses states internals update) "network"
            network_loss
        | none => m.superRegularizationLosses states internals update)) "entropy"
      = none := by
    rw [dictGet_foldl_accumulate _ _ _ (by decide)]
    exact hnet
  constructor
  · cases herm : m.entropy_regularization with
    | none =>
      simp only [tf_regularization_losses, herm]
      simp [hacc]
    | some er =>
      by_cases hpos : 0 < er
      · simp only [tf_regularization_losses, herm, if_pos hpos]
        simp [dictGet_dictSet_self, herm, hpos]
      · simp only [tf_regularization_losses, herm, if_neg hpos]
        simp [hacc, herm]
        exact le_of_not_lt hpos
  · intro er herm hpos
    simp only [tf_regularization_losses, herm, if_pos hpos]
    exact dictGet_dictSet_self _ _ _

/-- Witness for `entropy_loss_key`: the demo model has entropy regularization
enabled, so its losses dict carries an `'entropy'` entry. -/
theorem entropy_loss_key_witness :
    (dictGet (tf_regularization_losses demoModel demoStates [] false) "entropy").isSome :=
  (entropy_loss_key demoModel demoStates [] false (by decide)).1.mpr
    ⟨1, rfl, by norm_num⟩

/-- The default choice that claim C2 describes for an action without an entry
in `distributions_spec` (spec wording): Bernoulli for type bool, Categorical
for int, Beta for float with a `min_value` key, Gaussian for float without
one. -/
def claimedDefaultFor (summary_labels : List String) (action : ActionSpec) :
    DistributionObj :=
  if action.type = "bool" then
    .bernoulli action.shape summary_labels
  else if action.type = "int" then
    .categorical action.shape action.num_actions summary_labels
  else if action.min_value.isSome then
    .beta action.shape action.min_value action.max_value summary_labels
  else
    .gaussian action.shape summary_labels

/-- The distribution that claim C2 says `create_distributions` stores for an
action of type bool, int or float (spec wording): the `distributions_spec`
entry when present, the type-directed default otherwise. -/
def claimedDistributionFor (distributions_spec : Option (List (String × String)))
    (summary_labels : List String) (name : String) (action : ActionSpec) :
    DistributionObj :=
  match distributions_spec with
  | some dspec =>
    match dictGet dspec name with
    | some spec => .fromSpec spec action summary_labels
    | none => claimedDefaultFor summary_labels action
  | none => claimedDefaultFor summary_labels action

/-- For the three action types of claim C2 the code's selection agrees with the
claim's description. -/
theorem selectDistribution_eq_claimed (distributions_spec : Option (List (String × String)))
    (summary_labels : List String) (name : String) (action : ActionSpec)
    (hty : action.type = "bool" ∨ action.type = "int" ∨ action.type = "float") :
    selectDistribution distributions_spec summary_labels name action
      = some (claimedDistributionFor distributions_spec summary_labels name action) := by
  have hdef : selectDefault summary_labels action
      = some (claimedDefaultFor summary_labels action) := by
    rcases hty with h | h | h <;>
      simp +decide [selectDefault, claimedDefaultFor, h]
    split <;> rfl
  cases distributions_spec with
  | none => simpa [selectDistribution, claimedDistributionFor] using hdef
  | some dspec =>
    cases hd : dictGet dspec name with
    | some spec => simp [selectDistribution, claimedDistributionFor, hd]
    | none => simpa [selectDistribution, claimedDistributionFor, hd] using hdef

/-- A name absent from the keys of the action list is absent from the built
dict. -/
theorem dictGet_filterMap_not_mem {β : Type} (t : List (String × ActionSpec))
    (g : String → ActionSpec → Option β) (name : String)
    (h : ¬ name ∈ keys t) :
    dictGet (t.filterMap (fun p => (g p.1 p.2).map (fun d => (p.1, d)))) name = none := by
  induction t with
  | nil => rfl
  | cons q t ih =>
    have hq : name ≠ q.1 := by
      intro hc
      exact h (by simp [keys, hc])
    have ht : ¬ name ∈ keys t := fun hc => h (by simp [keys] at hc ⊢; exact Or.inr hc)
    cases hg : g q.1 q.2 with
    | none => simpa [List.filterMap_cons, hg] using ih ht
    | some d =>
      simp only [List.filterMap_cons, hg, Option.map_some]
      simp only [dictGet, hq, if_false]
      exact ih ht

/-- Looking up an action present in a nodup action list returns exactly its
selected value. -/
theorem dictGet_filterMap_mem {β : Type} (l : List (String × ActionSpec))
    (g : String → ActionSpec → Option β) (name : String) (action : ActionSpec)
    (hmem : (name, action) ∈ l) (hnd : (keys l).Nodup) :
    dictGet (l.filterMap (fun p => (g p.1 p.2).map (fun d => (p.1, d)))) name
      = g name action := by
  induction l with
  | nil => cases hmem
  | cons p t ih =>
    have hndt : (keys t).Nodup := (List.nodup_cons.mp hnd).2
    have hhead : ¬ p.1 ∈ keys t := (List.nodup_cons.mp hnd).1
    rcases List.mem_cons.mp hmem with heq | hin
    · subst heq
      cases hg : g name action with
      | some d =>
        simp [List.filterMap_cons, hg, dictGet]
      | none =>
        simp only [List.filterMap_cons, hg, Option.map_none]
        exact dictGet_filterMap_not_mem t g name hhead
    · have hne : name ≠ p.1 := by
        intro hc
        subst hc
        exact hhead (by simpa [keys] using List.mem_map_of_mem Prod.fst hin)
      cases hg : g p.1 p.2 with
      | none => simpa [List.filterMap_cons, hg] using ih hin hndt
      | some d =>
        simp only [List.filterMap_cons, hg, Option.map_some]
        simp only [dictGet, hne, if_false]
        exact ih hin hndt

/-- The keys of the built dict form a sublist of the action names. -/
theorem keys_filterMap_sublist {β : Type} (l : List (String × ActionSpec))
    (g : String → ActionSpec → Option β) :
    (keys (l.filterMap (fun p => (g p.1 p.2).map (fun d => (p.1, d))))).Sublist
      (keys l) := by
  induction l with
  | nil => exact List.Sublist.refl _
  | cons p t ih =>
    cases hg : g p.1 p.2 with
    | none =>
      simp only [List.filterMap_cons, hg, Option.map_none]
      exact ih.trans (List.sublist_cons_self _ _)
    | some d =>
      simp only [List.filterMap_cons, hg, Option.map_some, keys, List.map_cons]
      exact List.Sublist.cons₂ _ ih

/-- A key bound in a dict occurs among its keys. -/
theorem mem_keys_of_dictGet {α : Type} (d : List (String × α)) (k : String) (v : α)
    (h : dictGet d k = some v) : k ∈ keys d := by
  induction d with
  | nil => cases h
  | cons p t ih =>
    by_cases hk : k = p.1
    · simp [keys, hk]
    · rw [dictGet, if_neg hk] at h
      have hmem := ih h
      simp [keys] at hmem ⊢
      exact Or.inr hmem

/-- Folding the insertion loop over fresh keys is an append of the selected
entries. -/
theorem create_foldl_characterization (distributions_spec : Option (List (String × String)))
    (summary_labels : List String) (l : List (String × ActionSpec)) :
    ∀ acc, (keys l).Nodup → (∀ k, k ∈ keys l → dictGet acc k = none) →
      l.foldl (addDistribution distributions_spec summary_labels) acc
        = acc ++ l.filterMap (fun p =>
            (selectDistribution distributions_spec summary_labels p.1 p.2).map
              (fun d => (p.1, d))) := by
  induction l with
  | nil => intro acc _ _; simp
  | cons p t ih =>
    intro acc hnd hfresh
    have hndt : (keys t).Nodup := (List.nodup_cons.mp hnd).2
    have hhead : ¬ p.1 ∈ keys t := (List.nodup_cons.mp hnd).1
    rw [List.foldl_cons]
    cases hsel : selectDistribution distributions_spec summary_labels p.1 p.2 with
    | none =>
      rw [show addDistribution distributions_spec summary_labels acc p = acc by
            simp [addDistribution, hsel],
          ih acc hndt (fun k hk => hfresh k (by simp [keys] at hk ⊢; exact Or.inr hk))]
      simp [List.filterMap_cons, hsel]
    | some d =>
      have hstep : addDistribution distributions_spec summary_labels acc p
          = acc ++ [(p.1, d)] := by
        rw [show addDistribution distributions_spec summary_labels acc p
              = dictSet acc p.1 d by simp [addDistribution, hsel]]
        exact dictSet_of_fresh acc p.1 d (hfresh p.1 (by simp [keys]))
      rw [hstep, ih (acc ++ [(p.1, d)]) hndt ?fresh]
      · simp [List.filterMap_cons, hsel]
      case fresh =>
        intro k hk
        have hkp : k ≠ p.1 := by
          intro hc
          subst hc
          exact hhead hk
        rw [dictGet_append, hfresh k (by simp [keys] at hk ⊢; exact Or.inr hk)]
        simp [dictGet, hkp]

/-- Claim C2: for every action of type bool, int or float, the dict built by
`create_distributions` holds exactly one distribution under the action name:
the `distributions_spec` entry when that spec exists and contains the name,
and otherwise Bernoulli, Categorical, Beta (with `min_value`) or Gaussian
according to the action type. -/
theorem create_distributions_choice (actions_spec : List (String × ActionSpec))
    (distributions_spec : Option (List (String × String))) (summary_labels : List String)
    (name : String) (action : ActionSpec)
    (hmem : (name, action) ∈ actions_spec)
    (hnd : (keys actions_spec).Nodup)
    (hty : action.type = "bool" ∨ action.type = "int" ∨ action.type = "float") :
    dictGet (create_distributions actions_spec distributions_spec summary_labels) name
      = some (claimedDistributionFor distributions_spec summary_labels name action) ∧
    (keys (create_distributions actions_spec distributions_spec summary_labels)).count
      name = 1 := by
  have hchar := create_foldl_characterization distributions_spec summary_labels
    actions_spec [] hnd (fun _ _ => rfl)
  rw [create_distributions, hchar, List.nil_append]
  have hget := dictGet_filterMap_mem actions_spec
    (fun n a => selectDistribution distributions_spec summary_labels n a)
    name action hmem hnd
  constructor
  · rw [hget]
    exact selectDistribution_eq_claimed distributions_spec summary_labels name action hty
  · apply List.count_eq_one_of_mem
    · exact (keys_filterMap_sublist actions_spec _).nodup hnd
    · apply mem_keys_of_dictGet _ name
        (claimedDistributionFor distributions_spec summary_labels name action)
      rw [hget]
      exact selectDistribution_eq_claimed distributions_spec summary_labels name action hty

/-- A concrete action specification exercising each branch of
`create_distributions`. -/
def demoActionsSpec : List (String × ActionSpec) :=
  [("move", { type := "int", shape := [1], num_actions := 4,
              min_value := none, max_value := none }),
   ("flag", { type := "bool", shape := [], num_actions := 0,
              min_value := none, max_value := none }),
   ("force", { type := "float", shape := [1], num_actions := 0,
               min_value := some (-1), max_value := some 1 })]

/-- Witness for `create_distributions_choice`: the bounded float action gets
its claimed (Beta) distribution and exactly one entry. -/
theorem create_distributions_choice_witness :
    dictGet (create_distributions demoActionsSpec none []) "force"
      = some (claimedDistributionFor none [] "force"
          { type := "float", shape := [1], num_actions := 0,
            min_value := some (-1), max_value := some 1 }) :=
  (create_distributions_choice demoActionsSpec none [] "force"
    { type := "float", shape := [1], num_actions := 0,
      min_value := some (-1), max_value := some 1 }
    (by decide) (by decide) (Or.inr (Or.inr rfl))).1

/-- The key list is the first projection of the entries. -/
theorem keys_eq_map {α : Type} (d : List (String × α)) : keys d = d.map Prod.fst :=
  rfl

/-- On dicts with nodup keys, lookups only depend on the underlying key-value
mapping, not on the entry order. -/
theorem dictGet_perm {α : Type} {l₁ l₂ : List (String × α)} (hp : l₁.Perm l₂) :
    (keys l₁).Nodup → ∀ k, dictGet l₁ k = dictGet l₂ k := by
  induction hp with
  | nil => exact fun _ _ => rfl
  | cons p h ih =>
    intro hnd k
    have hndt := (List.nodup_cons.mp hnd).2
    by_cases hk : k = p.1
    · simp [dictGet, hk]
    · simp [dictGet, hk, ih hndt k]
  | swap x y l =>
    intro hnd k
    have hne : y.1 ≠ x.1 := by
      intro hc
      simp [keys, List.nodup_cons, hc] at hnd
    by_cases h1 : k = y.1
    · by_cases h2 : k = x.1
      · exact absurd (h1.symm.trans h2) hne
      · simp [dictGet, h1, h2, hne, Ne.symm hne]
    · by_cases h2 : k = x.1 <;> simp [dictGet, h1, h2, hne, Ne.symm hne]
  | trans h₁ h₂ ih₁ ih₂ =>
    intro hnd k
    have hmid := (h₁.map Prod.fst).nodup_iff.mp (by rw [keys_eq_map] at hnd; exact hnd)
    rw [ih₁ hnd k, ih₂ (by rw [keys_eq_map]; exact hmid) k]

/-- Sorting the key list is invariant under permuting the dict entries. -/
theorem sortedNames_perm (d₁ d₂ : List (String × Distribution)) (hp : d₁.Perm d₂) :
    sortedNames d₁ = sortedNames d₂ := by
  unfold sortedNames
  exact List.eq_of_perm_of_sorted
    (((List.perm_insertionSort _ _).trans (hp.map Prod.fst)).trans
      (List.perm_insertionSort _ _).symm)
    (List.sorted_insertionSort _ _) (List.sorted_insertionSort _ _)

/-- Claim C9: in `get_variables` and `get_summaries` the distribution-owned
entries come after the superclass-model and network entries, grouped per
distribution in ascending lexicographic order of the action names, and the
output does not depend on the insertion order of the distributions dict. -/
theorem variables_summaries_order (m : Model) (d₂ : List (String × Distribution))
    (include_submodules include_nontrainable : Bool)
    (hp : m.distributions.Perm d₂)
    (hnd : (keys m.distributions).Nodup) :
    (get_variables m include_submodules include_nontrainable
      = m.superGetVariables include_submodules include_nontrainable
        ++ m.network.get_variables include_nontrainable
        ++ (sortedNames m.distributions).flatMap (fun name =>
            ((dictGet m.distributions name).getD default).get_variables
              include_nontrainable)) ∧
    (get_summaries m
      = m.superGetSummaries ++ m.network.get_summaries
        ++ (sortedNames m.distributions).flatMap (fun name =>
            ((dictGet m.distributions name).getD default).get_summaries)) ∧
    List.Sorted (· ≤ ·) (sortedNames m.distributions) ∧
    (sortedNames m.distributions).Perm (keys m.distributions) ∧
    get_variables { m with distributions := d₂ } include_submodules include_nontrainable
      = get_variables m include_submodules include_nontrainable ∧
    get_summaries { m with distributions := d₂ } = get_summaries m := by
  have hknd₂ : (keys d₂).Nodup := by
    rw [keys_eq_map] at hnd ⊢
    exact (hp.map Prod.fst).nodup_iff.mp hnd
  have hg : ∀ k, dictGet d₂ k = dictGet m.distributions k :=
    dictGet_perm hp.symm hknd₂
  refine ⟨?_, ?_, List.sorted_insertionSort _ _, List.perm_insertionSort _ _, ?_, ?_⟩
  · simp [get_variables, List.append_assoc]
  · simp [get_summaries, List.append_assoc]
  · simp only [get_variables]
    rw [sortedNames_perm d₂ m.distributions hp.symm]
    simp only [hg]
  · simp only [get_summaries]
    rw [sortedNames_perm d₂ m.distributions hp.symm]
    simp only [hg]

/-- The demo distributions dict with its two entries swapped. -/
def demoDistributionsSwapped : List (String × Distribution) :=
  [("beta", demoDistribution "beta"), ("alpha", demoDistribution "alpha")]

/-- Witness for `variables_summaries_order`: swapping the insertion order of
the demo distributions leaves `get_variables` unchanged. -/
theorem variables_summaries_order_witness :
    get_variables { demoModel with distributions := demoDistributionsSwapped } true true
      = get_variables demoModel true true :=
  (variables_summaries_order demoModel demoDistributionsSwapped true true
    (List.Perm.swap ("beta", demoDistribution "beta")
      ("alpha", demoDistribution "alpha") [])
    (by simp [keys, demoModel])).2.2.2.2.1

end DistributionModelSpec
